import Mathlib

/-!
Verification of the auto-crop-grid core: the grid partitioner (`cropImage` in the
crop-image worker and in the `GridTool` component) and the gutter detector
(`detectPadding` / `detectVerticalGaps` / `detectHorizontalGaps` in the
detect-padding worker).

JavaScript numbers are modelled as exact rationals (`ℚ`); integer loop counters
and pixel coordinates as `ℕ`.  The literals `0.1`, `0.5`, `0.9`, `0.2` are the
exact rationals `1/10`, `1/2`, `9/10`, `1/5`; `Math.floor` on non-negative
values is `Nat` division / `Nat.floor`, and `Math.round` is `⌊x + 1/2⌋`
(JavaScript rounds halves toward positive infinity).
-/

/- ===================== Grid partitioner (cropImage) ===================== -/

/-- Source rectangle of one cell, in source-image pixel coordinates; the `quad`
object of `GridTool.cropImage` / the source arguments of `drawImage` in the
crop-image worker. -/
structure CellRect where
  x : ℚ
  y : ℚ
  w : ℚ
  h : ℚ
deriving DecidableEq, Repr

/-- `const cellWidth = (W - padding * (cols - 1)) / cols` (exact JS arithmetic;
the subtraction is on JS numbers, so we cast before subtracting). -/
def cellWidth (W cols padding : ℕ) : ℚ :=
  ((W : ℚ) - (padding : ℚ) * ((cols : ℚ) - 1)) / (cols : ℚ)

/-- `const cellHeight = (H - padding * (rows - 1)) / rows`. -/
def cellHeight (H rows padding : ℕ) : ℚ :=
  ((H : ℚ) - (padding : ℚ) * ((rows : ℚ) - 1)) / (rows : ℚ)

/-- The source rectangle of cell `i`: `col = i % cols`, `row = Math.floor(i / cols)`,
`x = col * (cellWidth + padding)`, `y = row * (cellHeight + padding)`. -/
def cropRect (W H cols rows padding : ℕ) (i : ℕ) : CellRect :=
  { x := ((i % cols : ℕ) : ℚ) * (cellWidth W cols padding + (padding : ℚ))
    y := ((i / cols : ℕ) : ℚ) * (cellHeight H rows padding + (padding : ℚ))
    w := cellWidth W cols padding
    h := cellHeight H rows padding }

/-- The geometry computed by `cropImage`: the loop `for (i = 0; i < totalCrops; i++)`
with `totalCrops = cols * rows` produces one source rectangle per cell, in index
order (the rendering of each rectangle to a PNG data URL is host-canvas work and
carries no further geometry). -/
def cropRects (W H cols rows padding : ℕ) : List CellRect :=
  (List.range (cols * rows)).map (cropRect W H cols rows padding)

/- ===================== Zero-padding tiling (C8) ===================== -/

/-- A point of the source image lies in a cell's source rectangle (rectangles are
half-open: the right/bottom edge belongs to the next cell). -/
def inRect (r : CellRect) (q : ℚ × ℚ) : Prop :=
  r.x ≤ q.1 ∧ q.1 < r.x + r.w ∧ r.y ≤ q.2 ∧ q.2 < r.y + r.h

/- ===================== Gutter detector: pixel scanning ===================== -/

/-- `const WHITE_THRESHOLD = 250`. -/
def WHITE_THRESHOLD : ℕ := 250

/-- `isWhite(data, width, height, x, y)`: out-of-bounds coordinates count as white;
otherwise the R, G and B bytes at `(y * width + x) * 4` must all be `≥ 250`.
The scan loops only ever pass non-negative coordinates, so `ℕ` coordinates with
the upper-bound checks model the JS bounds test faithfully. -/
def isWhite (data : ℕ → ℕ) (width height x y : ℕ) : Bool :=
  if width ≤ x ∨ height ≤ y then true
  else
    decide (WHITE_THRESHOLD ≤ data ((y * width + x) * 4)) &&
      decide (WHITE_THRESHOLD ≤ data ((y * width + x) * 4 + 1)) &&
      decide (WHITE_THRESHOLD ≤ data ((y * width + x) * 4 + 2))

/-- `gaps.add(g)`: JS sets keep insertion order and ignore a value already present. -/
def setAdd (l : List ℕ) (g : ℕ) : List ℕ :=
  if g ∈ l then l else l ++ [g]

/-- One iteration of the gap-scan loop body at position `x`, over the state
`(inGap, gapStart, gaps)`; `limit` is `0.2 * width` (resp. `0.2 * height`). -/
def scanStep (white : ℕ → Bool) (limit : ℚ) (s : Bool × ℕ × List ℕ) (x : ℕ) :
    Bool × ℕ × List ℕ :=
  if white x && !s.1 then (true, x, s.2.2)
  else if !(white x) && s.1 then
    (false, s.2.1,
      if 1 ≤ x - s.2.1 ∧ ((x - s.2.1 : ℕ) : ℚ) < limit then setAdd s.2.2 (x - s.2.1)
      else s.2.2)
  else s

/-- One scan-line walk: `for (x = 1; x < len - 1; x++)` starting with `inGap = false`
(the JS `gapStart = -1` is never read before being assigned), accumulating into the
direction's gap set `gaps0`. -/
def scanLineGaps (white : ℕ → Bool) (len : ℕ) (gaps0 : List ℕ) : List ℕ :=
  ((List.range' 1 (len - 2)).foldl (scanStep white ((len : ℚ) * (1 / 5)))
    (false, 0, gaps0)).2.2

/-- `detectVerticalGaps`: three horizontal scan lines at `floor(0.1*h)`, `floor(0.5*h)`,
`floor(0.9*h)` share one gap set. -/
def detectVerticalGaps (data : ℕ → ℕ) (width height : ℕ) : List ℕ :=
  [height / 10, height / 2, 9 * height / 10].foldl
    (fun gaps scanY => scanLineGaps (fun x => isWhite data width height x scanY) width gaps) []

/-- `detectHorizontalGaps`: three vertical scan lines at `floor(0.1*w)`, `floor(0.5*w)`,
`floor(0.9*w)`. -/
def detectHorizontalGaps (data : ℕ → ℕ) (width height : ℕ) : List ℕ :=
  [width / 10, width / 2, 9 * width / 10].foldl
    (fun gaps scanX => scanLineGaps (fun y => isWhite data width height scanX y) height gaps) []

/- ===================== Gutter detector: mode selection ===================== -/

/-- `Math.round` on a JS number: round halves toward positive infinity. -/
def jsRound (q : ℚ) : ℤ := ⌊q + 1 / 2⌋

/-- `Math.round(gap / 2) * 2`: quantize a candidate length to a multiple of 2. -/
def roundedKey (gap : ℕ) : ℤ := jsRound ((gap : ℚ) / 2) * 2

/-- `frequency.set(k, (frequency.get(k) || 0) + 1)` on an insertion-ordered map:
an existing key keeps its position, a new key is appended. -/
def mapInc : List (ℤ × ℕ) → ℤ → List (ℤ × ℕ)
  | [], k => [(k, 1)]
  | (k0, v) :: rest, k => if k = k0 then (k0, v + 1) :: rest else (k0, v) :: mapInc rest k

/-- `frequency.get(k) || 0`. -/
def mapGet : List (ℤ × ℕ) → ℤ → ℕ
  | [], _ => 0
  | (k0, v) :: rest, k => if k = k0 then v else mapGet rest k

/-- The frequency map built by `for (const gap of allGaps)`, in insertion order. -/
def buildFreq (gaps : List ℕ) : List (ℤ × ℕ) :=
  gaps.foldl (fun m g => mapInc m (roundedKey g)) []

/-- The `maxFreq` / `mostCommonGap` scan over map iteration order: the comparison is
strict (`freq > maxFreq`), so the first entry reaching the maximal frequency wins. -/
def pickMode (m : List (ℤ × ℕ)) : ℕ × ℤ :=
  m.foldl (fun acc p => if p.2 > acc.1 then (p.2, p.1) else acc) (0, 0)

/-- `detectPadding` after sampling: the two directions' gap sets are concatenated
(`[...vGaps, ...hGaps]`); an empty merge returns 0, otherwise the quantized mode is
scaled back with `Math.round(mostCommonGap / scale)`. -/
def detectPaddingSample (data : ℕ → ℕ) (width height : ℕ) (scale : ℚ) : ℤ :=
  let allGaps := detectVerticalGaps data width height ++ detectHorizontalGaps data width height
  if allGaps = [] then 0
  else jsRound (((pickMode (buildFreq allGaps)).2 : ℚ) / scale)

/-- The full worker computation: `scale = min(1, 900 / max(W, H))`; the sample canvas
is `(W * scale) × (H * scale)` (the canvas constructor truncates to an integer), and
`data` is the sampled RGBA buffer produced by the host's `drawImage`/`getImageData`. -/
def detectPadding (data : ℕ → ℕ) (W H : ℕ) : ℤ :=
  detectPaddingSample data
    (Nat.floor ((W : ℚ) * min 1 (900 / ((max W H : ℕ) : ℚ))))
    (Nat.floor ((H : ℚ) * min 1 (900 / ((max W H : ℕ) : ℚ))))
    (min 1 (900 / ((max W H : ℕ) : ℚ)))

/-- `GridTool`'s auto-detect effect: with the flag on, the detected size is stored
with `detected = true`; otherwise `{size: 0, detected: false}`. -/
def paddingInfo (autoPadding : Bool) (detectedSize : ℤ) : ℤ × Bool :=
  if autoPadding then (detectedSize, true) else (0, false)

/- ===================== Worker message handlers ===================== -/

/-- Responses of the detect-padding worker. -/
inductive DetectPaddingMsg where
  | result (paddingSize : ℤ)
  | error (msg : String)
deriving DecidableEq, Repr

/-- Responses of the crop-image worker. -/
inductive CropImageMsg where
  | result (croppedDataURLs : List String)
  | error (msg : String)
deriving DecidableEq, Repr

/-- `self.onmessage` of the detect-padding worker.  The body awaits
`detectPadding(imageBitmap)` inside `try`; `imageBitmap.close()` is the following
statement, so it executes only when detection returned normally, while the `catch`
branch posts the error response without closing.  The Boolean records whether
`close()` ran. -/
def detectOnMessage (outcome : Except String ℤ) : DetectPaddingMsg × Bool :=
  match outcome with
  | Except.ok n => (DetectPaddingMsg.result n, true)
  | Except.error e => (DetectPaddingMsg.error e, false)

/-- `self.onmessage` of the crop-image worker: identical `try`/`catch` shape, with
`imageBitmap.close()` placed directly after the awaited `cropImage(...)`. -/
def cropOnMessage (outcome : Except String (List String)) : CropImageMsg × Bool :=
  match outcome with
  | Except.ok urls => (CropImageMsg.result urls, true)
  | Except.error e => (CropImageMsg.error e, false)

/- Integer-threshold twins of the scan definitions: `g < len * 0.2` over the exact
rationals holds iff `5 * g < len` over the integers.  Rational arithmetic does not
reduce inside the kernel (its normalization is by well-founded recursion), so
concrete witnesses evaluate these equal twins instead. -/

/-- Twin of `scanStep` with the length filter stated over `ℕ`. -/
def scanStepN (white : ℕ → Bool) (len : ℕ) (s : Bool × ℕ × List ℕ) (x : ℕ) :
    Bool × ℕ × List ℕ :=
  if white x && !s.1 then (true, x, s.2.2)
  else if !(white x) && s.1 then
    (false, s.2.1,
      if 1 ≤ x - s.2.1 ∧ 5 * (x - s.2.1) < len then setAdd s.2.2 (x - s.2.1)
      else s.2.2)
  else s

/-- Twin of `scanLineGaps`. -/
def scanLineGapsN (white : ℕ → Bool) (len : ℕ) (gaps0 : List ℕ) : List ℕ :=
  ((List.range' 1 (len - 2)).foldl (scanStepN white len) (false, 0, gaps0)).2.2

/-- Twin of `detectVerticalGaps`. -/
def detectVerticalGapsN (data : ℕ → ℕ) (width height : ℕ) : List ℕ :=
  [height / 10, height / 2, 9 * height / 10].foldl
    (fun gaps scanY => scanLineGapsN (fun x => isWhite data width height x scanY) width gaps) []

/-- Twin of `detectHorizontalGaps`. -/
def detectHorizontalGapsN (data : ℕ → ℕ) (width height : ℕ) : List ℕ :=
  [width / 10, width / 2, 9 * width / 10].foldl
    (fun gaps scanX => scanLineGapsN (fun y => isWhite data width height scanX y) height gaps) []

/-- The spec's stated recording condition (§4.2): a run of white pixels is a
candidate iff it starts and ends strictly inside the scanned line, is bounded by
non-white pixels on both sides, and its length lies in `[1, 0.2 * len)`.  The run
occupies positions `[s, s + g)`; strictly inside means `1 ≤ s` and
`s + g ≤ len - 1`, and the bounding pixels are `s - 1` and `s + g`. -/
def specRunRecorded (white : ℕ → Bool) (len g : ℕ) : Prop :=
  ∃ s, 1 ≤ s ∧ s + g + 1 ≤ len ∧
    white (s - 1) = false ∧ white (s + g) = false ∧
    (∀ t, s ≤ t → t < s + g → white t = true) ∧
    1 ≤ g ∧ (g : ℚ) < (len : ℚ) * (1 / 5)

/- ===================== Lemmas and claim theorems ===================== -/
/- ===================== Partitioner helper lemmas ===================== -/

lemma cropRects_length (W H cols rows padding : ℕ) :
    (cropRects W H cols rows padding).length = cols * rows := by
  simp [cropRects]

lemma cropRects_getElem (W H cols rows padding i : ℕ) (hi : i < cols * rows) :
    (cropRects W H cols rows padding)[i]? = some (cropRect W H cols rows padding i) := by
  simp [cropRects, List.getElem?_map, List.getElem?_range hi]

lemma cropRects_mem_iff (W H cols rows padding : ℕ) (rect : CellRect) :
    rect ∈ cropRects W H cols rows padding ↔
      ∃ i, i < cols * rows ∧ rect = cropRect W H cols rows padding i := by
  simp only [cropRects, List.mem_map, List.mem_range]
  constructor
  · rintro ⟨i, hi, rfl⟩; exact ⟨i, hi, rfl⟩
  · rintro ⟨i, hi, rfl⟩; exact ⟨i, hi, rfl⟩

lemma cellWidth_pos (W cols padding : ℕ) (hc : 1 ≤ cols) (hpw : padding * (cols - 1) < W) :
    0 < cellWidth W cols padding := by
  have hcast : ((padding * (cols - 1) : ℕ) : ℚ) < (W : ℚ) := by exact_mod_cast hpw
  rw [Nat.cast_mul, Nat.cast_sub hc] at hcast
  have hc0 : (0 : ℚ) < (cols : ℚ) := by exact_mod_cast hc
  exact div_pos (by push_cast at hcast ⊢; linarith) hc0

lemma cols_mul_cellWidth (W cols padding : ℕ) (hc : 1 ≤ cols) :
    (cols : ℚ) * cellWidth W cols padding = (W : ℚ) - (padding : ℚ) * ((cols : ℚ) - 1) := by
  have hc0 : ((cols : ℚ)) ≠ 0 := by positivity
  rw [cellWidth, mul_div_cancel₀ _ hc0]

lemma rows_mul_cellHeight (H rows padding : ℕ) (hr : 1 ≤ rows) :
    (rows : ℚ) * cellHeight H rows padding = (H : ℚ) - (padding : ℚ) * ((rows : ℚ) - 1) := by
  have hr0 : ((rows : ℚ)) ≠ 0 := by positivity
  rw [cellHeight, mul_div_cancel₀ _ hr0]

/-- Every rectangle enumerated by `cropRects` lies inside the source image when the
positive-cell-size invariant holds. -/
lemma cropRects_bounds (W H cols rows padding : ℕ) (hc : 1 ≤ cols) (hr : 1 ≤ rows)
    (hpw : padding * (cols - 1) < W) (hph : padding * (rows - 1) < H) :
    ∀ rect ∈ cropRects W H cols rows padding,
      0 ≤ rect.x ∧ 0 ≤ rect.y ∧ 0 ≤ rect.w ∧ 0 ≤ rect.h ∧
        rect.x + rect.w ≤ (W : ℚ) ∧ rect.y + rect.h ≤ (H : ℚ) := by
  intro rect hrect
  obtain ⟨i, hi, rfl⟩ := (cropRects_mem_iff W H cols rows padding rect).1 hrect
  have hcw : 0 < cellWidth W cols padding := cellWidth_pos W cols padding hc hpw
  have hch : 0 < cellHeight H rows padding := cellWidth_pos H rows padding hr hph
  have hcol : i % cols ≤ cols - 1 := by
    have := Nat.mod_lt i (show 0 < cols by omega); omega
  have hrow : i / cols ≤ rows - 1 := by
    have : i / cols < rows := Nat.div_lt_of_lt_mul (by omega)
    omega
  have hcolQ : ((i % cols : ℕ) : ℚ) ≤ (cols : ℚ) - 1 := by
    calc ((i % cols : ℕ) : ℚ) ≤ ((cols - 1 : ℕ) : ℚ) := by exact_mod_cast hcol
    _ = (cols : ℚ) - 1 := by rw [Nat.cast_sub hc]; norm_num
  have hrowQ : ((i / cols : ℕ) : ℚ) ≤ (rows : ℚ) - 1 := by
    calc ((i / cols : ℕ) : ℚ) ≤ ((rows - 1 : ℕ) : ℚ) := by exact_mod_cast hrow
    _ = (rows : ℚ) - 1 := by rw [Nat.cast_sub hr]; norm_num
  have hp0 : (0 : ℚ) ≤ (padding : ℚ) := by positivity
  simp only [cropRect]
  have hxw : ((i % cols : ℕ) : ℚ) * (cellWidth W cols padding + (padding : ℚ)) +
      cellWidth W cols padding ≤ (W : ℚ) := by
    have step : ((i % cols : ℕ) : ℚ) * (cellWidth W cols padding + (padding : ℚ))
        ≤ ((cols : ℚ) - 1) * (cellWidth W cols padding + (padding : ℚ)) :=
      mul_le_mul_of_nonneg_right hcolQ (by linarith)
    have total : ((cols : ℚ) - 1) * (cellWidth W cols padding + (padding : ℚ)) +
        cellWidth W cols padding = (W : ℚ) := by
      have expand : ((cols : ℚ) - 1) * (cellWidth W cols padding + (padding : ℚ)) +
          cellWidth W cols padding
          = (cols : ℚ) * cellWidth W cols padding + ((cols : ℚ) - 1) * (padding : ℚ) := by
        ring
      rw [expand, cols_mul_cellWidth W cols padding hc]; ring
    linarith
  have hyh : ((i / cols : ℕ) : ℚ) * (cellHeight H rows padding + (padding : ℚ)) +
      cellHeight H rows padding ≤ (H : ℚ) := by
    have step : ((i / cols : ℕ) : ℚ) * (cellHeight H rows padding + (padding : ℚ))
        ≤ ((rows : ℚ) - 1) * (cellHeight H rows padding + (padding : ℚ)) :=
      mul_le_mul_of_nonneg_right hrowQ (by linarith)
    have total : ((rows : ℚ) - 1) * (cellHeight H rows padding + (padding : ℚ)) +
        cellHeight H rows padding = (H : ℚ) := by
      have expand : ((rows : ℚ) - 1) * (cellHeight H rows padding + (padding : ℚ)) +
          cellHeight H rows padding
          = (rows : ℚ) * cellHeight H rows padding + ((rows : ℚ) - 1) * (padding : ℚ) := by
        ring
      rw [expand, rows_mul_cellHeight H rows padding hr]; ring
    linarith
  refine ⟨?_, ?_, le_of_lt hcw, le_of_lt hch, hxw, hyh⟩
  · exact mul_nonneg (by positivity) (by linarith)
  · exact mul_nonneg (by positivity) (by linarith)

/- ===================== Claim theorems: partitioner ===================== -/

/-- C1.  For `columns ≥ 1`, `rows ≥ 1`, `padding ≥ 0` satisfying the
positive-cell-size invariant, `cropImage` produces exactly `columns * rows` cells in
row-major order; the cell at index `i` has `col = i mod columns`, `row = i div columns`,
source origin `(col * (cellWidth + padding), row * (cellHeight + padding))` and size
`(cellWidth, cellHeight)` with `cellWidth = (W - padding*(columns-1))/columns` and
`cellHeight = (H - padding*(rows-1))/rows`. -/
theorem c1_partition_row_major (W H cols rows padding : ℕ)
    (hc : 1 ≤ cols) (hr : 1 ≤ rows)
    (hpw : padding * (cols - 1) < W) (hph : padding * (rows - 1) < H) :
    (cropRects W H cols rows padding).length = cols * rows ∧
      ∀ i, i < cols * rows →
        (cropRects W H cols rows padding)[i]? =
          some { x := ((i % cols : ℕ) : ℚ) *
                        ((((W : ℚ) - (padding : ℚ) * ((cols : ℚ) - 1)) / (cols : ℚ)) + (padding : ℚ))
                 y := ((i / cols : ℕ) : ℚ) *
                        ((((H : ℚ) - (padding : ℚ) * ((rows : ℚ) - 1)) / (rows : ℚ)) + (padding : ℚ))
                 w := ((W : ℚ) - (padding : ℚ) * ((cols : ℚ) - 1)) / (cols : ℚ)
                 h := ((H : ℚ) - (padding : ℚ) * ((rows : ℚ) - 1)) / (rows : ℚ) } := by
  refine ⟨cropRects_length W H cols rows padding, fun i hi => ?_⟩
  rw [cropRects_getElem W H cols rows padding i hi]
  rfl

/-- C1 witness: a concrete 10×10 image split 2×2 with padding 1. -/
theorem c1_partition_row_major_witness :
    (1 ≤ 2 ∧ 1 ≤ 2 ∧ 1 * (2 - 1) < 10 ∧ 1 * (2 - 1) < 10) ∧
      ((cropRects 10 10 2 2 1).length = 2 * 2 ∧
        ∀ i, i < 2 * 2 →
          (cropRects 10 10 2 2 1)[i]? =
            some { x := ((i % 2 : ℕ) : ℚ) *
                          ((((10 : ℚ) - (1 : ℚ) * ((2 : ℚ) - 1)) / (2 : ℚ)) + (1 : ℚ))
                   y := ((i / 2 : ℕ) : ℚ) *
                          ((((10 : ℚ) - (1 : ℚ) * ((2 : ℚ) - 1)) / (2 : ℚ)) + (1 : ℚ))
                   w := ((10 : ℚ) - (1 : ℚ) * ((2 : ℚ) - 1)) / (2 : ℚ)
                   h := ((10 : ℚ) - (1 : ℚ) * ((2 : ℚ) - 1)) / (2 : ℚ) }) := by
  refine ⟨by norm_num, ?_⟩
  have h := c1_partition_row_major 10 10 2 2 1 (by norm_num) (by norm_num)
    (by norm_num) (by norm_num)
  exact_mod_cast h

/-- C2 counterexample: with `W = H = 10`, `columns = 3`, `rows = 1`, `padding = 5`
the computed cell width is `(10 - 5*2)/3 = 0`, yet `cropImage` performs no
configuration check at all: it still returns `3 * 1 = 3` cells, each of width `0`,
with no error of any kind. -/
theorem c2_counterexample :
    cropRects 10 10 3 1 5 =
      [ { x := 0, y := 0, w := 0, h := 10 },
        { x := 5, y := 0, w := 0, h := 10 },
        { x := 10, y := 0, w := 0, h := 10 } ] := by
  have h3 : List.range (3 * 1) = [0, 1, 2] := by decide
  simp only [cropRects, h3, List.map_cons, List.map_nil, cropRect, cellWidth, cellHeight]
  norm_num

/-- C2 (amended).  `cropImage` contains no configuration validation: whenever the
computed cell width or cell height is `≤ 0` it still returns `columns * rows`
cells, every one of whose source rectangles carries that non-positive dimension;
no configuration error identifying a dimension is raised (any failure would come
from the host canvas, not from a check in this code). -/
theorem c2_no_validation (W H cols rows padding : ℕ)
    (hc : 1 ≤ cols) (hr : 1 ≤ rows)
    (hdegenerate : cellWidth W cols padding ≤ 0 ∨ cellHeight H rows padding ≤ 0) :
    (cropRects W H cols rows padding).length = cols * rows ∧
      ∀ rect ∈ cropRects W H cols rows padding,
        rect.w = cellWidth W cols padding ∧ rect.h = cellHeight H rows padding ∧
          (rect.w ≤ 0 ∨ rect.h ≤ 0) := by
  refine ⟨cropRects_length W H cols rows padding, fun rect hrect => ?_⟩
  obtain ⟨i, hi, rfl⟩ := (cropRects_mem_iff W H cols rows padding rect).1 hrect
  exact ⟨rfl, rfl, hdegenerate⟩

/-- C2 witness for the amended claim, at the counterexample's width-degenerate
configuration. -/
theorem c2_no_validation_witness :
    (1 ≤ 3 ∧ 1 ≤ 1 ∧ (cellWidth 10 3 5 ≤ 0 ∨ cellHeight 10 1 5 ≤ 0)) ∧
      ((cropRects 10 10 3 1 5).length = 3 * 1 ∧
        ∀ rect ∈ cropRects 10 10 3 1 5,
          rect.w = cellWidth 10 3 5 ∧ rect.h = cellHeight 10 1 5 ∧
            (rect.w ≤ 0 ∨ rect.h ≤ 0)) :=
  ⟨⟨by norm_num, by norm_num, Or.inl (by norm_num [cellWidth])⟩,
    c2_no_validation 10 10 3 1 5 (by norm_num) (by norm_num)
      (Or.inl (by norm_num [cellWidth]))⟩

/-- C7.  Under the `GridConfig` invariant every cell rectangle computed by the
partitioner has non-negative `x`, `y`, `width`, `height` and satisfies
`x + width ≤ imageWidth` and `y + height ≤ imageHeight`. -/
theorem c7_cells_inside_image (W H cols rows padding : ℕ)
    (hc : 1 ≤ cols) (hr : 1 ≤ rows)
    (hpw : padding * (cols - 1) < W) (hph : padding * (rows - 1) < H) :
    ∀ rect ∈ cropRects W H cols rows padding,
      0 ≤ rect.x ∧ 0 ≤ rect.y ∧ 0 ≤ rect.w ∧ 0 ≤ rect.h ∧
        rect.x + rect.w ≤ (W : ℚ) ∧ rect.y + rect.h ≤ (H : ℚ) :=
  cropRects_bounds W H cols rows padding hc hr hpw hph

/-- C7 witness: the invariant holds for a 10×10 image, 2×2 grid, padding 1,
and the containment facts follow. -/
theorem c7_cells_inside_image_witness :
    (1 ≤ 2 ∧ 1 ≤ 2 ∧ 1 * (2 - 1) < 10 ∧ 1 * (2 - 1) < 10) ∧
      ∀ rect ∈ cropRects 10 10 2 2 1,
        0 ≤ rect.x ∧ 0 ≤ rect.y ∧ 0 ≤ rect.w ∧ 0 ≤ rect.h ∧
          rect.x + rect.w ≤ (10 : ℚ) ∧ rect.y + rect.h ≤ (10 : ℚ) := by
  refine ⟨by norm_num, ?_⟩
  have h := c7_cells_inside_image 10 10 2 2 1 (by norm_num) (by norm_num)
    (by norm_num) (by norm_num)
  exact_mod_cast h

lemma cellWidth_zero (W cols : ℕ) : cellWidth W cols 0 = (W : ℚ) / (cols : ℚ) := by
  simp [cellWidth]

lemma cellHeight_zero (H rows : ℕ) : cellHeight H rows 0 = (H : ℚ) / (rows : ℚ) := by
  simp [cellHeight]

lemma cropRect_zero (W H cols rows i : ℕ) :
    cropRect W H cols rows 0 i =
      { x := ((i % cols : ℕ) : ℚ) * ((W : ℚ) / (cols : ℚ))
        y := ((i / cols : ℕ) : ℚ) * ((H : ℚ) / (rows : ℚ))
        w := (W : ℚ) / (cols : ℚ)
        h := (H : ℚ) / (rows : ℚ) } := by
  simp [cropRect, cellWidth_zero, cellHeight_zero]

lemma interval_step_apart (w q : ℚ) (hw : 0 ≤ w) (a b : ℕ) (hab : a < b)
    (h1 : q < (a : ℚ) * w + w) (h2 : (b : ℚ) * w ≤ q) : False := by
  have hab1 : ((a : ℚ) + 1) ≤ (b : ℚ) := by exact_mod_cast hab
  have h3 : ((a : ℚ) + 1) * w ≤ (b : ℚ) * w := mul_le_mul_of_nonneg_right hab1 hw
  nlinarith

lemma cropRect_zero_disjoint (W H cols rows : ℕ) (hc : 1 ≤ cols) (i j : ℕ) (hij : i ≠ j)
    (q : ℚ × ℚ) (hi : inRect (cropRect W H cols rows 0 i) q)
    (hj : inRect (cropRect W H cols rows 0 j) q) : False := by
  rw [cropRect_zero] at hi hj
  obtain ⟨hix, hix2, hiy, hiy2⟩ := hi
  obtain ⟨hjx, hjx2, hjy, hjy2⟩ := hj
  have hwQ : (0 : ℚ) ≤ (W : ℚ) / (cols : ℚ) := by positivity
  have hhQ : (0 : ℚ) ≤ (H : ℚ) / (rows : ℚ) := by positivity
  by_cases hcol : i % cols = j % cols
  · have hrow : i / cols ≠ j / cols := by
      intro hdiv
      exact hij (by rw [← Nat.div_add_mod i cols, ← Nat.div_add_mod j cols, hdiv, hcol])
    rcases Nat.lt_or_ge (i / cols) (j / cols) with hlt | hge
    · exact interval_step_apart _ q.2 hhQ _ _ hlt hiy2 hjy
    · exact interval_step_apart _ q.2 hhQ _ _ (lt_of_le_of_ne hge (Ne.symm hrow)) hjy2 hiy
  · rcases Nat.lt_or_ge (i % cols) (j % cols) with hlt | hge
    · exact interval_step_apart _ q.1 hwQ _ _ hlt hix2 hjx
    · exact interval_step_apart _ q.1 hwQ _ _ (lt_of_le_of_ne hge (Ne.symm hcol)) hjx2 hix

lemma cropRect_zero_cover (W H cols rows : ℕ) (hc : 1 ≤ cols) (hr : 1 ≤ rows)
    (hW : 1 ≤ W) (hH : 1 ≤ H) (q : ℚ × ℚ)
    (h1 : 0 ≤ q.1) (h2 : q.1 < (W : ℚ)) (h3 : 0 ≤ q.2) (h4 : q.2 < (H : ℚ)) :
    ∃ i, i < cols * rows ∧ inRect (cropRect W H cols rows 0 i) q := by
  set cw : ℚ := (W : ℚ) / (cols : ℚ) with hcw_def
  set ch : ℚ := (H : ℚ) / (rows : ℚ) with hch_def
  have hcw : 0 < cw := by
    apply div_pos
    · exact_mod_cast Nat.lt_of_lt_of_le Nat.zero_lt_one hW
    · exact_mod_cast hc
  have hch : 0 < ch := by
    apply div_pos
    · exact_mod_cast Nat.lt_of_lt_of_le Nat.zero_lt_one hH
    · exact_mod_cast hr
  have hccw : (cols : ℚ) * cw = (W : ℚ) := by
    rw [hcw_def]
    field_simp
  have hrch : (rows : ℚ) * ch = (H : ℚ) := by
    rw [hch_def]
    field_simp
  set col : ℕ := ⌊q.1 / cw⌋₊ with hcol_def
  set row : ℕ := ⌊q.2 / ch⌋₊ with hrow_def
  have hcol_lt : col < cols := by
    rw [hcol_def]
    rw [Nat.floor_lt (div_nonneg h1 hcw.le)]
    rw [div_lt_iff₀ hcw]
    rw [← hccw] at h2
    linarith [h2]
  have hrow_lt : row < rows := by
    rw [hrow_def]
    rw [Nat.floor_lt (div_nonneg h3 hch.le)]
    rw [div_lt_iff₀ hch]
    rw [← hrch] at h4
    linarith [h4]
  have hcol_le : (col : ℚ) * cw ≤ q.1 := by
    have := Nat.floor_le (div_nonneg h1 hcw.le)
    rw [← hcol_def] at this
    exact (le_div_iff₀ hcw).1 this
  have hcol_hi : q.1 < (col : ℚ) * cw + cw := by
    have := Nat.lt_floor_add_one (q.1 / cw)
    rw [← hcol_def] at this
    have h5 := (div_lt_iff₀ hcw).1 this
    nlinarith
  have hrow_le : (row : ℚ) * ch ≤ q.2 := by
    have := Nat.floor_le (div_nonneg h3 hch.le)
    rw [← hrow_def] at this
    exact (le_div_iff₀ hch).1 this
  have hrow_hi : q.2 < (row : ℚ) * ch + ch := by
    have := Nat.lt_floor_add_one (q.2 / ch)
    rw [← hrow_def] at this
    have h5 := (div_lt_iff₀ hch).1 this
    nlinarith
  refine ⟨col + cols * row, ?_, ?_⟩
  · calc col + cols * row < cols + cols * row := by omega
    _ = cols * (row + 1) := by ring
    _ ≤ cols * rows := Nat.mul_le_mul_left cols (by omega)
  · have hmod : (col + cols * row) % cols = col := by
      rw [Nat.add_mul_mod_self_left, Nat.mod_eq_of_lt hcol_lt]
    have hdiv : (col + cols * row) / cols = row := by
      rw [Nat.add_mul_div_left _ _ (by omega : 0 < cols), Nat.div_eq_of_lt hcol_lt]
      omega
    rw [cropRect_zero, inRect, hmod, hdiv]
    exact ⟨hcol_le, hcol_hi, hrow_le, hrow_hi⟩

/-- C8.  With `padding = 0` every cell has size `W/columns × H/rows`, and the
`columns * rows` source rectangles tile the image exactly: pairwise non-overlapping
and jointly covering `[0, W) × [0, H)`. -/
theorem c8_zero_padding_tiles (W H cols rows : ℕ) (hc : 1 ≤ cols) (hr : 1 ≤ rows)
    (hW : 1 ≤ W) (hH : 1 ≤ H) :
    (∀ rect ∈ cropRects W H cols rows 0,
        rect.w = (W : ℚ) / (cols : ℚ) ∧ rect.h = (H : ℚ) / (rows : ℚ)) ∧
      List.Pairwise (fun a b => ∀ q : ℚ × ℚ, ¬(inRect a q ∧ inRect b q))
        (cropRects W H cols rows 0) ∧
      (∀ q : ℚ × ℚ, (0 ≤ q.1 ∧ q.1 < (W : ℚ) ∧ 0 ≤ q.2 ∧ q.2 < (H : ℚ)) ↔
        ∃ rect ∈ cropRects W H cols rows 0, inRect rect q) := by
  refine ⟨?_, ?_, ?_⟩
  · intro rect hrect
    obtain ⟨i, hi, rfl⟩ := (cropRects_mem_iff W H cols rows 0 rect).1 hrect
    rw [cropRect_zero]
    exact ⟨rfl, rfl⟩
  · rw [cropRects, List.pairwise_map]
    apply List.Pairwise.imp ?_ (List.pairwise_lt_range (cols * rows))
    intro i j hij q ⟨hqi, hqj⟩
    exact cropRect_zero_disjoint W H cols rows hc i j (Nat.ne_of_lt hij) q hqi hqj
  · intro q
    constructor
    · rintro ⟨h1, h2, h3, h4⟩
      obtain ⟨i, hi, hin⟩ := cropRect_zero_cover W H cols rows hc hr hW hH q h1 h2 h3 h4
      exact ⟨cropRect W H cols rows 0 i,
        (cropRects_mem_iff W H cols rows 0 _).2 ⟨i, hi, rfl⟩, hin⟩
    · rintro ⟨rect, hrect, hin⟩
      have hb := cropRects_bounds W H cols rows 0 hc hr (by omega) (by omega) rect hrect
      obtain ⟨hx0, hy0, hw0, hh0, hxw, hyh⟩ := hb
      obtain ⟨ha, hb2, hc2, hd⟩ := hin
      exact ⟨by linarith, by linarith, by linarith, by linarith⟩

/-- C8 witness: a 4×4 image in a 2×2 grid with zero padding tiles exactly. -/
theorem c8_zero_padding_tiles_witness :
    (1 ≤ 2 ∧ 1 ≤ 2 ∧ 1 ≤ 4 ∧ 1 ≤ 4) ∧
      ((∀ rect ∈ cropRects 4 4 2 2 0,
          rect.w = (4 : ℚ) / (2 : ℚ) ∧ rect.h = (4 : ℚ) / (2 : ℚ)) ∧
        List.Pairwise (fun a b => ∀ q : ℚ × ℚ, ¬(inRect a q ∧ inRect b q))
          (cropRects 4 4 2 2 0) ∧
        (∀ q : ℚ × ℚ, (0 ≤ q.1 ∧ q.1 < (4 : ℚ) ∧ 0 ≤ q.2 ∧ q.2 < (4 : ℚ)) ↔
          ∃ rect ∈ cropRects 4 4 2 2 0, inRect rect q)) := by
  refine ⟨by norm_num, ?_⟩
  have h := c8_zero_padding_tiles 4 4 2 2 (by norm_num) (by norm_num) (by norm_num) (by norm_num)
  exact_mod_cast h

/- ===================== Claim theorems: handlers, determinism ===================== -/

/-- C5 counterexample: when processing fails (here with the worker's own
`Failed to get OffscreenCanvas context` error), both workers post the error
response while `imageBitmap.close()` never runs — the handle is *not* released on
the failure path, contradicting the claim. -/
theorem c5_counterexample :
    detectOnMessage (Except.error "Failed to get OffscreenCanvas context") =
        (DetectPaddingMsg.error "Failed to get OffscreenCanvas context", false) ∧
      cropOnMessage (Except.error "Failed to get OffscreenCanvas context for crop 0") =
        (CropImageMsg.error "Failed to get OffscreenCanvas context for crop 0", false) :=
  ⟨rfl, rfl⟩

/-- C5 (amended).  In both workers the transferred ImageBitmap is closed if and
only if the request's processing succeeds: `close()` sits between the awaited
processing call and the success `postMessage`, and the `catch` branch posts the
error response without closing the handle. -/
theorem c5_close_iff_success :
    (∀ o : Except String ℤ,
        ((detectOnMessage o).2 = true ↔ ∃ n, o = Except.ok n)) ∧
      ∀ o : Except String (List String),
        ((cropOnMessage o).2 = true ↔ ∃ u, o = Except.ok u) := by
  constructor
  · intro o
    cases o with
    | ok n => simp [detectOnMessage]
    | error e => simp [detectOnMessage]
  · intro o
    cases o with
    | ok u => simp [cropOnMessage]
    | error e => simp [cropOnMessage]

/-- C9.  Gutter detection is deterministic: identical sampled pixel content and
identical dimensions (with the fixed constants 900 and 250 baked into the
definitions) yield an identical GutterEstimate. -/
theorem c9_detect_deterministic (d1 d2 : ℕ → ℕ) (W1 W2 H1 H2 : ℕ)
    (hdata : ∀ i, d1 i = d2 i) (hW : W1 = W2) (hH : H1 = H2) :
    paddingInfo true (detectPadding d1 W1 H1) = paddingInfo true (detectPadding d2 W2 H2) := by
  have hd : d1 = d2 := funext hdata
  subst hd
  subst hW
  subst hH
  rfl

/-- C9 witness: two runs on the same all-black 10×10 buffer agree. -/
theorem c9_detect_deterministic_witness :
    ((∀ i : ℕ, (fun _ : ℕ => 0) i = (fun _ : ℕ => 0) i) ∧ 10 = 10 ∧ 10 = 10) ∧
      paddingInfo true (detectPadding (fun _ : ℕ => 0) 10 10) =
        paddingInfo true (detectPadding (fun _ : ℕ => 0) 10 10) :=
  ⟨⟨fun _ => rfl, rfl, rfl⟩,
    c9_detect_deterministic (fun _ => 0) (fun _ => 0) 10 10 10 10 (fun _ => rfl) rfl rfl⟩

/- ===================== No-gutter images (C6) ===================== -/

lemma foldl_scanStep_allFalse (white : ℕ → Bool) (limit : ℚ) (l : List ℕ)
    (hwl : ∀ t ∈ l, white t = false) :
    ∀ (gs : ℕ) (gaps : List ℕ),
      l.foldl (scanStep white limit) (false, gs, gaps) = (false, gs, gaps) := by
  induction l with
  | nil => intro gs gaps; rfl
  | cons a l ih =>
    intro gs gaps
    rw [List.foldl_cons]
    have ha : white a = false := hwl a (List.mem_cons_self a l)
    have hstep : scanStep white limit (false, gs, gaps) a = (false, gs, gaps) := by
      simp [scanStep, ha]
    rw [hstep]
    exact ih (fun t ht => hwl t (List.mem_cons_of_mem a ht)) gs gaps

lemma scanLineGaps_id (white : ℕ → Bool) (len : ℕ) (gaps0 : List ℕ)
    (hw : ∀ t, 1 ≤ t → t < len - 1 → white t = false) :
    scanLineGaps white len gaps0 = gaps0 := by
  rw [scanLineGaps,
    foldl_scanStep_allFalse white ((len : ℚ) * (1 / 5)) (List.range' 1 (len - 2))
      (fun t ht => by
        rw [List.mem_range'_1] at ht
        exact hw t ht.1 (by omega))]

lemma isWhite_dark (data : ℕ → ℕ) (w h x y : ℕ) (hd : ∀ i, data i < WHITE_THRESHOLD)
    (hx : x < w) (hy : y < h) : isWhite data w h x y = false := by
  rw [isWhite, if_neg (by omega)]
  rw [decide_eq_false (Nat.not_le_of_lt (hd ((y * w + x) * 4)))]
  rfl

lemma detectVerticalGaps_dark (data : ℕ → ℕ) (w h : ℕ)
    (hd : ∀ i, data i < WHITE_THRESHOLD) (hh : 1 ≤ h) :
    detectVerticalGaps data w h = [] := by
  have key : ∀ scanY, scanY < h → ∀ gaps0 : List ℕ,
      scanLineGaps (fun x => isWhite data w h x scanY) w gaps0 = gaps0 := by
    intro scanY hy gaps0
    exact scanLineGaps_id _ w gaps0
      (fun t ht1 ht2 => isWhite_dark data w h t scanY hd (by omega) hy)
  rw [detectVerticalGaps]
  rw [List.foldl_cons, key (h / 10) (by omega) []]
  rw [List.foldl_cons, key (h / 2) (by omega) []]
  rw [List.foldl_cons, key (9 * h / 10) (by omega) []]
  rfl

lemma detectHorizontalGaps_dark (data : ℕ → ℕ) (w h : ℕ)
    (hd : ∀ i, data i < WHITE_THRESHOLD) (hw : 1 ≤ w) :
    detectHorizontalGaps data w h = [] := by
  have key : ∀ scanX, scanX < w → ∀ gaps0 : List ℕ,
      scanLineGaps (fun y => isWhite data w h scanX y) h gaps0 = gaps0 := by
    intro scanX hx gaps0
    exact scanLineGaps_id _ h gaps0
      (fun t ht1 ht2 => isWhite_dark data w h scanX t hd hx (by omega))
  rw [detectHorizontalGaps]
  rw [List.foldl_cons, key (w / 10) (by omega) []]
  rw [List.foldl_cons, key (w / 2) (by omega) []]
  rw [List.foldl_cons, key (9 * w / 10) (by omega) []]
  rfl

/-- C6.  When the merged candidate collection of the two scans is empty — as happens
for any image with no white pixel at all — detection returns `sizePx = 0` with
`isDetected = true`, with no error: the computation is a total function of the
sampled pixels. -/
theorem c6_empty_merge_zero (data : ℕ → ℕ) (width height : ℕ) (scale : ℚ)
    (hempty : detectVerticalGaps data width height ++
      detectHorizontalGaps data width height = []) :
    paddingInfo true (detectPaddingSample data width height scale) = (0, true) := by
  rw [detectPaddingSample]
  simp only [hempty]
  rfl

/-- C6 witness: a solid all-black 10×10 sample has an empty merged candidate
collection (both scans record nothing), and detection yields `(0, true)`. -/
theorem c6_empty_merge_zero_witness :
    (detectVerticalGaps (fun _ : ℕ => 0) 10 10 ++
        detectHorizontalGaps (fun _ : ℕ => 0) 10 10 = []) ∧
      paddingInfo true (detectPaddingSample (fun _ : ℕ => 0) 10 10 1) = (0, true) :=
  ⟨by decide, c6_empty_merge_zero (fun _ => 0) 10 10 1 (by decide)⟩

/- ===================== Mode-selection lemmas (C3, C10) ===================== -/

lemma mapGet_mapInc (m : List (ℤ × ℕ)) (k q : ℤ) :
    mapGet (mapInc m k) q = if q = k then mapGet m q + 1 else mapGet m q := by
  induction m with
  | nil =>
    by_cases hq : q = k
    · subst hq; simp [mapInc, mapGet]
    · simp [mapInc, mapGet, hq]
  | cons p rest ih =>
    obtain ⟨k0, v⟩ := p
    by_cases hk : k = k0
    · subst hk
      by_cases hq : q = k
      · subst hq; simp [mapInc, mapGet]
      · simp [mapInc, mapGet, hq]
    · by_cases hq : q = k0
      · have hqk : ¬ q = k := by rw [hq]; exact fun hh => hk hh.symm
        have hk0k : ¬ k0 = k := fun hh => hk hh.symm
        simp [mapInc, mapGet, hk, hq, hqk, hk0k]
      · simp [mapInc, mapGet, hk, hq, ih]

lemma mapGet_buildFreq_loop (l : List ℕ) :
    ∀ (m : List (ℤ × ℕ)) (q : ℤ),
      mapGet (l.foldl (fun acc g => mapInc acc (roundedKey g)) m) q =
        mapGet m q + l.countP (fun g => roundedKey g == q) := by
  induction l with
  | nil => intro m q; simp
  | cons a l ih =>
    intro m q
    rw [List.foldl_cons, ih, mapGet_mapInc, List.countP_cons]
    by_cases hq : q = roundedKey a
    · simp only [hq, if_pos rfl, beq_self_eq_true, if_true]
      omega
    · have hbeq : (roundedKey a == q) = false := by
        simp [beq_iff_eq]
        exact fun hh => hq hh.symm
      rw [if_neg hq, hbeq]
      simp

lemma mem_mapInc (k : ℤ) :
    ∀ (m : List (ℤ × ℕ)) (p : ℤ × ℕ), p ∈ mapInc m k →
      (∃ v, (p.1, v) ∈ m) ∨ p.1 = k := by
  intro m
  induction m with
  | nil =>
    intro p hp
    simp only [mapInc, List.mem_singleton] at hp
    right; rw [hp]
  | cons q rest ih =>
    obtain ⟨k0, v⟩ := q
    intro p hp
    by_cases hk : k = k0
    · rw [mapInc, if_pos hk] at hp
      rcases List.mem_cons.1 hp with heq | hmem
      · left; exact ⟨v, by rw [heq]; exact List.mem_cons_self _ _⟩
      · left; exact ⟨p.2, List.mem_cons_of_mem _ (by simpa using hmem)⟩
    · rw [mapInc, if_neg hk] at hp
      rcases List.mem_cons.1 hp with heq | hmem
      · left; exact ⟨v, by rw [heq]; exact List.mem_cons_self _ _⟩
      · rcases ih p hmem with ⟨v2, hv2⟩ | heq2
        · left; exact ⟨v2, List.mem_cons_of_mem _ hv2⟩
        · right; exact heq2

lemma mapInc_pos (k : ℤ) :
    ∀ (m : List (ℤ × ℕ)), (∀ p ∈ m, 1 ≤ p.2) → ∀ p ∈ mapInc m k, 1 ≤ p.2 := by
  intro m
  induction m with
  | nil =>
    intro _ p hp
    simp only [mapInc, List.mem_singleton] at hp
    rw [hp]
  | cons q rest ih =>
    obtain ⟨k0, v⟩ := q
    intro hm p hp
    by_cases hk : k = k0
    · rw [mapInc, if_pos hk] at hp
      rcases List.mem_cons.1 hp with heq | hmem
      · rw [heq]; omega
      · exact hm p (List.mem_cons_of_mem _ hmem)
    · rw [mapInc, if_neg hk] at hp
      rcases List.mem_cons.1 hp with heq | hmem
      · rw [heq]; exact hm (k0, v) (List.mem_cons_self _ _)
      · exact ih (fun q2 hq2 => hm q2 (List.mem_cons_of_mem _ hq2)) p hmem

lemma mapInc_ne_nil (m : List (ℤ × ℕ)) (k : ℤ) : mapInc m k ≠ [] := by
  cases m with
  | nil => simp [mapInc]
  | cons q rest =>
    obtain ⟨k0, v⟩ := q
    by_cases hk : k = k0 <;> simp [mapInc, hk]

lemma buildFreq_loop_mem (l : List ℕ) :
    ∀ (m : List (ℤ × ℕ)) (p : ℤ × ℕ),
      p ∈ l.foldl (fun acc g => mapInc acc (roundedKey g)) m →
      (∃ v, (p.1, v) ∈ m) ∨ ∃ g ∈ l, p.1 = roundedKey g := by
  induction l with
  | nil => intro m p hp; left; exact ⟨p.2, by simpa using hp⟩
  | cons a l ih =>
    intro m p hp
    rw [List.foldl_cons] at hp
    rcases ih (mapInc m (roundedKey a)) p hp with ⟨v, hv⟩ | ⟨g, hg, hpg⟩
    · rcases mem_mapInc (roundedKey a) m (p.1, v) hv with ⟨v2, hv2⟩ | heq
      · left; exact ⟨v2, hv2⟩
      · right; exact ⟨a, List.mem_cons_self _ _, heq⟩
    · right; exact ⟨g, List.mem_cons_of_mem _ hg, hpg⟩

lemma buildFreq_loop_pos (l : List ℕ) :
    ∀ m : List (ℤ × ℕ), (∀ p ∈ m, 1 ≤ p.2) →
      ∀ p ∈ l.foldl (fun acc g => mapInc acc (roundedKey g)) m, 1 ≤ p.2 := by
  induction l with
  | nil => intro m hm; exact hm
  | cons a l ih =>
    intro m hm
    rw [List.foldl_cons]
    exact ih _ (mapInc_pos (roundedKey a) m hm)

lemma buildFreq_loop_ne_nil (l : List ℕ) :
    ∀ m : List (ℤ × ℕ), (m ≠ [] ∨ l ≠ []) →
      l.foldl (fun acc g => mapInc acc (roundedKey g)) m ≠ [] := by
  induction l with
  | nil =>
    intro m hm
    rcases hm with h | h
    · simpa using h
    · simp at h
  | cons a l ih =>
    intro m _
    rw [List.foldl_cons]
    exact ih _ (Or.inl (mapInc_ne_nil m (roundedKey a)))

lemma pickFold_spec (l : List (ℤ × ℕ)) :
    ∀ (acc r : ℕ × ℤ),
      l.foldl (fun acc p => if p.2 > acc.1 then (p.2, p.1) else acc) acc = r →
      (r = acc ∧ ∀ p ∈ l, p.2 ≤ acc.1) ∨
        (∃ pre suf, l = pre ++ (r.2, r.1) :: suf ∧ acc.1 < r.1 ∧
          (∀ p ∈ pre, p.2 < r.1) ∧ (∀ p ∈ suf, p.2 ≤ r.1)) := by
  induction l with
  | nil => intro acc r hr; left; exact ⟨hr.symm, by simp⟩
  | cons p l ih =>
    intro acc r hr
    rw [List.foldl_cons] at hr
    by_cases hgt : p.2 > acc.1
    · simp only [if_pos hgt] at hr
      rcases ih (p.2, p.1) r hr with ⟨hre, hall⟩ | ⟨pre, suf, heq, hlt, hpre, hsuf⟩
      · right
        refine ⟨[], l, ?_, ?_, by simp, ?_⟩
        · rw [hre]; simp
        · rw [hre]; exact hgt
        · intro q hq
          have h2 := hall q hq
          rw [hre]; exact h2
      · right
        refine ⟨p :: pre, suf, by rw [List.cons_append, heq], by
          have : p.2 < r.1 := hlt
          omega, ?_, hsuf⟩
        intro q hq
        rcases List.mem_cons.1 hq with h2 | h2
        · rw [h2]; exact hlt
        · exact hpre q h2
    · simp only [if_neg hgt] at hr
      rcases ih acc r hr with ⟨hre, hall⟩ | ⟨pre, suf, heq, hlt, hpre, hsuf⟩
      · left
        refine ⟨hre, fun q hq => ?_⟩
        rcases List.mem_cons.1 hq with h2 | h2
        · rw [h2]; omega
        · exact hall q h2
      · right
        refine ⟨p :: pre, suf, by rw [List.cons_append, heq], hlt, ?_, hsuf⟩
        intro q hq
        rcases List.mem_cons.1 hq with h2 | h2
        · rw [h2]; omega
        · exact hpre q h2

lemma pickMode_spec (m : List (ℤ × ℕ)) (hne : m ≠ []) (hpos : ∀ p ∈ m, 1 ≤ p.2) :
    ∃ pre suf, m = pre ++ ((pickMode m).2, (pickMode m).1) :: suf ∧
      (∀ p ∈ pre, p.2 < (pickMode m).1) ∧ (∀ p ∈ suf, p.2 ≤ (pickMode m).1) := by
  rcases pickFold_spec m (0, 0) (pickMode m) rfl with ⟨_, hall⟩ | ⟨pre, suf, heq, _, hpre, hsuf⟩
  · obtain ⟨p, hp⟩ := List.exists_mem_of_ne_nil m hne
    have h1 := hall p hp
    have h2 := hpos p hp
    omega
  · exact ⟨pre, suf, heq, hpre, hsuf⟩

lemma pickMode_snd_cases (m : List (ℤ × ℕ)) :
    (pickMode m).2 = 0 ∨ ∃ v, ((pickMode m).2, v) ∈ m := by
  rcases pickFold_spec m (0, 0) (pickMode m) rfl with ⟨hre, _⟩ | ⟨pre, suf, heq, _, _, _⟩
  · left; rw [hre]
  · right
    refine ⟨(pickMode m).1, ?_⟩
    have hmem : ((pickMode m).2, (pickMode m).1) ∈
        pre ++ ((pickMode m).2, (pickMode m).1) :: suf :=
      List.mem_append_right _ (List.mem_cons_self _ _)
    rw [← heq] at hmem
    exact hmem

lemma roundedKey_eq (g : ℕ) : roundedKey g = 2 * (((g : ℤ) + 1) / 2) := by
  rw [roundedKey, jsRound]
  have hsplit : (g : ℚ) / 2 + 1 / 2 = (((g : ℤ) + 1 : ℤ) : ℚ) / ((2 : ℕ) : ℚ) := by
    push_cast; ring
  rw [hsplit, Rat.floor_intCast_div_natCast]
  push_cast
  omega

lemma roundedKey_even (g : ℕ) : roundedKey g % 2 = 0 := by
  rw [roundedKey_eq]; omega

lemma roundedKey_close (g : ℕ) : (roundedKey g - (g : ℤ)).natAbs ≤ 1 := by
  rw [roundedKey_eq]; omega

lemma jsRound_intCast (n : ℤ) : jsRound ((n : ℚ)) = n := by
  rw [jsRound, Int.floor_int_add]
  norm_num

lemma gap_limit_iff (g len : ℕ) : ((g : ℕ) : ℚ) < (len : ℚ) * (1 / 5) ↔ 5 * g < len := by
  rw [mul_one_div, lt_div_iff₀ (by norm_num : (0 : ℚ) < 5)]
  have hcast : (g : ℚ) * 5 = ((5 * g : ℕ) : ℚ) := by push_cast; ring
  rw [hcast, Nat.cast_lt]

lemma scanStep_eq_nat (white : ℕ → Bool) (len : ℕ) :
    scanStep white ((len : ℚ) * (1 / 5)) = scanStepN white len := by
  funext s x
  by_cases h1 : (white x && !s.1) = true
  · simp only [scanStep, scanStepN, if_pos h1]
  · by_cases h2 : (!(white x) && s.1) = true
    · simp only [scanStep, scanStepN, if_neg h1, if_pos h2]
      rw [if_congr (and_congr_right fun _ => gap_limit_iff (x - s.2.1) len) rfl rfl]
    · simp only [scanStep, scanStepN, if_neg h1, if_neg h2]

lemma scanLineGaps_eq_nat (white : ℕ → Bool) (len : ℕ) (gaps0 : List ℕ) :
    scanLineGaps white len gaps0 = scanLineGapsN white len gaps0 := by
  rw [scanLineGaps, scanLineGapsN, scanStep_eq_nat]

lemma detectVerticalGaps_eq_nat (data : ℕ → ℕ) (width height : ℕ) :
    detectVerticalGaps data width height = detectVerticalGapsN data width height := by
  rw [detectVerticalGaps, detectVerticalGapsN]
  have hf : (fun (gaps : List ℕ) scanY =>
        scanLineGaps (fun x => isWhite data width height x scanY) width gaps) =
      fun gaps scanY => scanLineGapsN (fun x => isWhite data width height x scanY) width gaps := by
    funext gaps scanY
    exact scanLineGaps_eq_nat _ width gaps
  rw [hf]

lemma detectHorizontalGaps_eq_nat (data : ℕ → ℕ) (width height : ℕ) :
    detectHorizontalGaps data width height = detectHorizontalGapsN data width height := by
  rw [detectHorizontalGaps, detectHorizontalGapsN]
  have hf : (fun (gaps : List ℕ) scanX =>
        scanLineGaps (fun y => isWhite data width height scanX y) height gaps) =
      fun gaps scanX => scanLineGapsN (fun y => isWhite data width height scanX y) height gaps := by
    funext gaps scanX
    exact scanLineGaps_eq_nat _ height gaps
  rw [hf]

/-- C3.  The detector merges the vertical and horizontal candidates into one
collection (`[...vGaps, ...hGaps]`); each element is quantized to a nearest
multiple of 2; the frequency map counts every occurrence in the merged collection;
and the selected value sits in the map with maximal frequency, strictly exceeding
every *earlier* entry (so ties resolve to the value encountered first during
tallying); the returned size is the selected value rescaled. -/
theorem c3_mode_selection (data : ℕ → ℕ) (width height : ℕ) (scale : ℚ)
    (gaps : List ℕ) (m : List (ℤ × ℕ))
    (hgaps : gaps = detectVerticalGaps data width height ++
      detectHorizontalGaps data width height)
    (hm : m = buildFreq gaps) (hne : gaps ≠ []) :
    (∀ g ∈ gaps, roundedKey g % 2 = 0 ∧ (roundedKey g - (g : ℤ)).natAbs ≤ 1) ∧
      (∀ q : ℤ, mapGet m q = gaps.countP (fun g => roundedKey g == q)) ∧
      (∃ pre suf, m = pre ++ ((pickMode m).2, (pickMode m).1) :: suf ∧
        (∀ p ∈ pre, p.2 < (pickMode m).1) ∧ (∀ p ∈ suf, p.2 ≤ (pickMode m).1)) ∧
      detectPaddingSample data width height scale =
        jsRound ((((pickMode m).2 : ℤ) : ℚ) / scale) := by
  subst hm
  refine ⟨fun g _ => ⟨roundedKey_even g, roundedKey_close g⟩, ?_, ?_, ?_⟩
  · intro q
    rw [buildFreq, mapGet_buildFreq_loop]
    simp [mapGet]
  · exact pickMode_spec _ (buildFreq_loop_ne_nil _ [] (Or.inr hne))
      (buildFreq_loop_pos _ [] (by simp))
  · rw [detectPaddingSample]
    rw [← hgaps]
    rw [if_neg hne]

/-- C3 witness: an 8×8 sample whose column `x = 4` is white produces the single
vertical candidate `[1]` (the horizontal scans cross the all-white column and never
close), so the merged collection is non-empty and the theorem applies. -/
theorem c3_mode_selection_witness :
    ((detectVerticalGaps (fun i => if (i / 4) % 8 = 4 then 255 else 0) 8 8 ++
        detectHorizontalGaps (fun i => if (i / 4) % 8 = 4 then 255 else 0) 8 8) ≠ []) ∧
      ((∀ g ∈ detectVerticalGaps (fun i => if (i / 4) % 8 = 4 then 255 else 0) 8 8 ++
          detectHorizontalGaps (fun i => if (i / 4) % 8 = 4 then 255 else 0) 8 8,
          roundedKey g % 2 = 0 ∧ (roundedKey g - (g : ℤ)).natAbs ≤ 1) ∧
        (∀ q : ℤ,
          mapGet (buildFreq (detectVerticalGaps (fun i => if (i / 4) % 8 = 4 then 255 else 0) 8 8 ++
            detectHorizontalGaps (fun i => if (i / 4) % 8 = 4 then 255 else 0) 8 8)) q =
          (detectVerticalGaps (fun i => if (i / 4) % 8 = 4 then 255 else 0) 8 8 ++
            detectHorizontalGaps (fun i => if (i / 4) % 8 = 4 then 255 else 0) 8 8).countP
              (fun g => roundedKey g == q)) ∧
        (∃ pre suf,
          buildFreq (detectVerticalGaps (fun i => if (i / 4) % 8 = 4 then 255 else 0) 8 8 ++
            detectHorizontalGaps (fun i => if (i / 4) % 8 = 4 then 255 else 0) 8 8) =
            pre ++ ((pickMode (buildFreq (detectVerticalGaps (fun i => if (i / 4) % 8 = 4 then 255 else 0) 8 8 ++
              detectHorizontalGaps (fun i => if (i / 4) % 8 = 4 then 255 else 0) 8 8))).2,
              (pickMode (buildFreq (detectVerticalGaps (fun i => if (i / 4) % 8 = 4 then 255 else 0) 8 8 ++
                detectHorizontalGaps (fun i => if (i / 4) % 8 = 4 then 255 else 0) 8 8))).1) :: suf ∧
            (∀ p ∈ pre, p.2 < (pickMode (buildFreq (detectVerticalGaps (fun i => if (i / 4) % 8 = 4 then 255 else 0) 8 8 ++
              detectHorizontalGaps (fun i => if (i / 4) % 8 = 4 then 255 else 0) 8 8))).1) ∧
            (∀ p ∈ suf, p.2 ≤ (pickMode (buildFreq (detectVerticalGaps (fun i => if (i / 4) % 8 = 4 then 255 else 0) 8 8 ++
              detectHorizontalGaps (fun i => if (i / 4) % 8 = 4 then 255 else 0) 8 8))).1)) ∧
        detectPaddingSample (fun i => if (i / 4) % 8 = 4 then 255 else 0) 8 8 1 =
          jsRound ((((pickMode (buildFreq (detectVerticalGaps (fun i => if (i / 4) % 8 = 4 then 255 else 0) 8 8 ++
            detectHorizontalGaps (fun i => if (i / 4) % 8 = 4 then 255 else 0) 8 8))).2 : ℤ) : ℚ) / 1)) :=
  ⟨by rw [detectVerticalGaps_eq_nat, detectHorizontalGaps_eq_nat]; decide,
    c3_mode_selection (fun i => if (i / 4) % 8 = 4 then 255 else 0) 8 8 1 _ _ rfl rfl
      (by rw [detectVerticalGaps_eq_nat, detectHorizontalGaps_eq_nat]; decide)⟩

lemma detectPaddingSample_even_scale_one (data : ℕ → ℕ) (w h : ℕ) :
    detectPaddingSample data w h 1 % 2 = 0 := by
  rw [detectPaddingSample]
  by_cases hempty :
      detectVerticalGaps data w h ++ detectHorizontalGaps data w h = []
  · rw [if_pos hempty]; decide
  · rw [if_neg hempty, div_one, jsRound_intCast]
    rcases pickMode_snd_cases
        (buildFreq (detectVerticalGaps data w h ++ detectHorizontalGaps data w h)) with
      h0 | ⟨v, hv⟩
    · rw [h0]; decide
    · rcases buildFreq_loop_mem _ [] _ hv with ⟨v2, hv2⟩ | ⟨g, _, hpg⟩
      · simp at hv2
      · have hpg2 : (pickMode (buildFreq (detectVerticalGaps data w h ++
            detectHorizontalGaps data w h))).2 = roundedKey g := hpg
        rw [hpg2]
        exact roundedKey_even g

/-- C10.  For images whose larger dimension is at most 900 the downscale factor is 1,
so the returned size is the quantized mode itself: always an even number (0 included).
An odd true gutter width can therefore never be reported exactly. -/
theorem c10_no_downscale_even (data : ℕ → ℕ) (W H : ℕ) (hW : 1 ≤ W) (hH : 1 ≤ H)
    (hsmall : max W H ≤ 900) : detectPadding data W H % 2 = 0 := by
  have hscale : min 1 (900 / ((max W H : ℕ) : ℚ)) = 1 := by
    apply min_eq_left
    rw [one_le_div₀ (by exact_mod_cast (by omega : 0 < max W H))]
    exact_mod_cast hsmall
  rw [detectPadding, hscale, mul_one, Nat.floor_natCast, mul_one, Nat.floor_natCast]
  exact detectPaddingSample_even_scale_one data W H

/-- C10 witness: a 10×10 all-black image (no downscale) reports an even size. -/
theorem c10_no_downscale_even_witness :
    (1 ≤ 10 ∧ 1 ≤ 10 ∧ max 10 10 ≤ 900) ∧
      detectPadding (fun _ : ℕ => 0) 10 10 % 2 = 0 :=
  ⟨by norm_num,
    c10_no_downscale_even (fun _ => 0) 10 10 (by norm_num) (by norm_num) (by norm_num)⟩

/- ===================== Scan-line run characterization (C4) ===================== -/

lemma mem_setAdd (l : List ℕ) (a g : ℕ) : g ∈ setAdd l a ↔ g ∈ l ∨ g = a := by
  rw [setAdd]
  by_cases h : a ∈ l
  · rw [if_pos h]
    constructor
    · exact Or.inl
    · rintro (hg | rfl)
      · exact hg
      · exact h
  · rw [if_neg h]
    simp [List.mem_append]

/-- Membership in the gaps accumulated by the scan loop over positions
`[x, x + n)`, for an arbitrary entry state.  A gap is present iff it was already
present, or the currently open run (when `inGap`) closes at some non-white
position inside the range, or a fresh run opens (at `x` with `inGap = false`, or
just after a non-white pixel) and closes at a non-white position inside the
range; in each case subject to the length filter. -/
lemma scanFoldl_mem (white : ℕ → Bool) (limit : ℚ) :
    ∀ (n x : ℕ) (inGap : Bool) (gapStart : ℕ) (gaps : List ℕ) (g : ℕ),
      (g ∈ ((List.range' x n).foldl (scanStep white limit) (inGap, gapStart, gaps)).2.2) ↔
        (g ∈ gaps
          ∨ (inGap = true ∧ ∃ e, x ≤ e ∧ e < x + n ∧
              (∀ t, x ≤ t → t < e → white t = true) ∧ white e = false ∧
              g = e - gapStart ∧ 1 ≤ g ∧ (g : ℚ) < limit)
          ∨ (∃ s e, x ≤ s ∧ s < e ∧ e < x + n ∧
              ((s = x ∧ inGap = false) ∨ (x < s ∧ white (s - 1) = false)) ∧
              (∀ t, s ≤ t → t < e → white t = true) ∧ white e = false ∧
              g = e - s ∧ 1 ≤ g ∧ (g : ℚ) < limit)) := by
  intro n
  induction n with
  | zero =>
    intro x inGap gapStart gaps g
    rw [show List.range' x 0 = [] from rfl, List.foldl_nil]
    constructor
    · exact fun h => Or.inl h
    · rintro (h | ⟨-, e, he1, he2, -, -, -, -, -⟩ | ⟨s, e, hs1, hse, he, -, -, -, -, -, -⟩)
      · exact h
      · omega
      · omega
  | succ n ih =>
    intro x inGap gapStart gaps g
    rw [List.range'_succ, List.foldl_cons]
    cases hw : white x with
    | true =>
      cases inGap with
      | false =>
        have hstep : scanStep white limit (false, gapStart, gaps) x = (true, x, gaps) := by
          simp [scanStep, hw]
        rw [hstep, ih]
        constructor
        · rintro (h | ⟨-, e, he1, he2, hwAll, hwe, hge, hg1, hglim⟩ |
              ⟨s, e, hs1, hse, he, hcond, hwAll, hwe, hge, hg1, hglim⟩)
          · exact Or.inl h
          · right; right
            refine ⟨x, e, le_refl x, by omega, by omega, Or.inl ⟨rfl, rfl⟩, ?_, hwe, hge,
              hg1, hglim⟩
            intro t ht1 ht2
            rcases Nat.eq_or_lt_of_le ht1 with heq | hlt
            · rw [← heq]; exact hw
            · exact hwAll t (by omega) ht2
          · rcases hcond with ⟨-, hcontra⟩ | ⟨hs2, hwprev⟩
            · exact Bool.noConfusion hcontra
            · right; right
              exact ⟨s, e, by omega, hse, by omega, Or.inr ⟨by omega, hwprev⟩, hwAll, hwe,
                hge, hg1, hglim⟩
        · rintro (h | ⟨hin, -⟩ | ⟨s, e, hs1, hse, he, hcond, hwAll, hwe, hge, hg1, hglim⟩)
          · exact Or.inl h
          · exact Bool.noConfusion hin
          · rcases hcond with ⟨hsx, -⟩ | ⟨hxs, hwprev⟩
            · subst hsx
              right; left
              exact ⟨rfl, e, by omega, by omega, fun t ht1 ht2 => hwAll t (by omega) ht2,
                hwe, hge, hg1, hglim⟩
            · by_cases hsx1 : s = x + 1
              · exfalso
                have hprev : s - 1 = x := by omega
                rw [hprev, hw] at hwprev
                exact Bool.noConfusion hwprev
              · right; right
                exact ⟨s, e, by omega, hse, by omega, Or.inr ⟨by omega, hwprev⟩, hwAll,
                  hwe, hge, hg1, hglim⟩
      | true =>
        have hstep : scanStep white limit (true, gapStart, gaps) x = (true, gapStart, gaps) := by
          simp [scanStep, hw]
        rw [hstep, ih]
        constructor
        · rintro (h | ⟨-, e, he1, he2, hwAll, hwe, hge, hg1, hglim⟩ |
              ⟨s, e, hs1, hse, he, hcond, hwAll, hwe, hge, hg1, hglim⟩)
          · exact Or.inl h
          · right; left
            refine ⟨rfl, e, by omega, by omega, ?_, hwe, hge, hg1, hglim⟩
            intro t ht1 ht2
            rcases Nat.eq_or_lt_of_le ht1 with heq | hlt
            · rw [← heq]; exact hw
            · exact hwAll t (by omega) ht2
          · rcases hcond with ⟨-, hcontra⟩ | ⟨hxs, hwprev⟩
            · exact Bool.noConfusion hcontra
            · right; right
              exact ⟨s, e, by omega, hse, by omega, Or.inr ⟨by omega, hwprev⟩, hwAll, hwe,
                hge, hg1, hglim⟩
        · rintro (h | ⟨-, e, he1, he2, hwAll, hwe, hge, hg1, hglim⟩ |
              ⟨s, e, hs1, hse, he, hcond, hwAll, hwe, hge, hg1, hglim⟩)
          · exact Or.inl h
          · rcases Nat.eq_or_lt_of_le he1 with heq | hlt
            · exfalso
              rw [← heq, hw] at hwe
              exact Bool.noConfusion hwe
            · right; left
              exact ⟨rfl, e, by omega, by omega, fun t ht1 ht2 => hwAll t (by omega) ht2,
                hwe, hge, hg1, hglim⟩
          · rcases hcond with ⟨-, hcontra⟩ | ⟨hxs, hwprev⟩
            · exact Bool.noConfusion hcontra
            · by_cases hs1' : s = x + 1
              · exfalso
                have heq : s - 1 = x := by omega
                rw [heq, hw] at hwprev
                exact Bool.noConfusion hwprev
              · right; right
                exact ⟨s, e, by omega, hse, by omega, Or.inr ⟨by omega, hwprev⟩, hwAll,
                  hwe, hge, hg1, hglim⟩
    | false =>
      cases inGap with
      | false =>
        have hstep : scanStep white limit (false, gapStart, gaps) x = (false, gapStart, gaps) := by
          simp [scanStep, hw]
        rw [hstep, ih]
        constructor
        · rintro (h | ⟨hin, -⟩ | ⟨s, e, hs1, hse, he, hcond, hwAll, hwe, hge, hg1, hglim⟩)
          · exact Or.inl h
          · exact Bool.noConfusion hin
          · right; right
            rcases hcond with ⟨hs, -⟩ | ⟨hxs, hwprev⟩
            · refine ⟨s, e, by omega, hse, by omega, Or.inr ⟨by omega, ?_⟩, hwAll, hwe,
                hge, hg1, hglim⟩
              have heq : s - 1 = x := by omega
              rw [heq]; exact hw
            · exact ⟨s, e, by omega, hse, by omega, Or.inr ⟨by omega, hwprev⟩, hwAll, hwe,
                hge, hg1, hglim⟩
        · rintro (h | ⟨hin, -⟩ | ⟨s, e, hs1, hse, he, hcond, hwAll, hwe, hge, hg1, hglim⟩)
          · exact Or.inl h
          · exact Bool.noConfusion hin
          · rcases hcond with ⟨hsx, -⟩ | ⟨hxs, hwprev⟩
            · exfalso
              have hws := hwAll s (le_refl s) hse
              rw [hsx, hw] at hws
              exact Bool.noConfusion hws
            · right; right
              by_cases hs1' : s = x + 1
              · exact ⟨s, e, by omega, hse, by omega, Or.inl ⟨hs1', rfl⟩, hwAll, hwe, hge,
                  hg1, hglim⟩
              · exact ⟨s, e, by omega, hse, by omega, Or.inr ⟨by omega, hwprev⟩, hwAll,
                  hwe, hge, hg1, hglim⟩
      | true =>
        have hstep : scanStep white limit (true, gapStart, gaps) x =
            (false, gapStart,
              if 1 ≤ x - gapStart ∧ ((x - gapStart : ℕ) : ℚ) < limit then
                setAdd gaps (x - gapStart)
              else gaps) := by
          simp [scanStep, hw]
        rw [hstep, ih]
        have hmem2 : g ∈ (if 1 ≤ x - gapStart ∧ ((x - gapStart : ℕ) : ℚ) < limit then
            setAdd gaps (x - gapStart) else gaps) ↔
            g ∈ gaps ∨ (g = x - gapStart ∧ 1 ≤ x - gapStart ∧
              ((x - gapStart : ℕ) : ℚ) < limit) := by
          by_cases hcond : 1 ≤ x - gapStart ∧ ((x - gapStart : ℕ) : ℚ) < limit
          · rw [if_pos hcond, mem_setAdd]
            constructor
            · rintro (h | h)
              · exact Or.inl h
              · exact Or.inr ⟨h, hcond⟩
            · rintro (h | ⟨h, -⟩)
              · exact Or.inl h
              · exact Or.inr h
          · rw [if_neg hcond]
            constructor
            · exact Or.inl
            · rintro (h | ⟨-, h2, h3⟩)
              · exact h
              · exact absurd ⟨h2, h3⟩ hcond
        rw [hmem2]
        constructor
        · rintro ((h | ⟨hgeq, hc1, hc2⟩) | ⟨hin, -⟩ |
              ⟨s, e, hs1, hse, he, hcond, hwAll, hwe, hge, hg1, hglim⟩)
          · exact Or.inl h
          · right; left
            refine ⟨rfl, x, le_refl x, by omega, fun t ht1 ht2 => absurd ht2 (by omega),
              hw, hgeq, by omega, ?_⟩
            rw [hgeq]; exact hc2
          · exact Bool.noConfusion hin
          · right; right
            rcases hcond with ⟨hs, -⟩ | ⟨hxs, hwprev⟩
            · refine ⟨s, e, by omega, hse, by omega, Or.inr ⟨by omega, ?_⟩, hwAll, hwe,
                hge, hg1, hglim⟩
              have heq : s - 1 = x := by omega
              rw [heq]; exact hw
            · exact ⟨s, e, by omega, hse, by omega, Or.inr ⟨by omega, hwprev⟩, hwAll, hwe,
                hge, hg1, hglim⟩
        · rintro (h | ⟨-, e, he1, he2, hwAll, hwe, hge, hg1, hglim⟩ |
              ⟨s, e, hs1, hse, he, hcond, hwAll, hwe, hge, hg1, hglim⟩)
          · exact Or.inl (Or.inl h)
          · rcases Nat.eq_or_lt_of_le he1 with heq | hlt
            · left; right
              refine ⟨by omega, by omega, ?_⟩
              have heq2 : x - gapStart = g := by omega
              rw [heq2]; exact hglim
            · exfalso
              have hwx := hwAll x (le_refl x) hlt
              rw [hw] at hwx
              exact Bool.noConfusion hwx
          · rcases hcond with ⟨-, hcontra⟩ | ⟨hxs, hwprev⟩
            · exact Bool.noConfusion hcontra
            · right; right
              by_cases hs1' : s = x + 1
              · exact ⟨s, e, by omega, hse, by omega, Or.inl ⟨hs1', rfl⟩, hwAll, hwe, hge,
                  hg1, hglim⟩
              · exact ⟨s, e, by omega, hse, by omega, Or.inr ⟨by omega, hwprev⟩, hwAll,
                  hwe, hge, hg1, hglim⟩

/-- C4 counterexample: on a 30-pixel scan line whose pixels 27 and 28 are white,
the run `[27, 28]` is bounded by the non-white pixels 26 and 29, lies strictly
inside the line, and has length `2 ∈ [1, 6)`, so by the claim it would be
recorded; but the loop `for (x = 1; x < 29; x++)` ends at `x = 28` with the run
still open and records nothing. -/
theorem c4_counterexample :
    specRunRecorded (fun x => decide (27 ≤ x) && decide (x ≤ 28)) 30 2 ∧
      2 ∉ scanLineGaps (fun x => decide (27 ≤ x) && decide (x ≤ 28)) 30 [] := by
  constructor
  · refine ⟨27, by norm_num, by norm_num, by decide, by decide, ?_, by norm_num, by norm_num⟩
    intro t ht1 ht2
    have ht : t = 27 ∨ t = 28 := by omega
    rcases ht with rfl | rfl <;> decide
  · rw [scanLineGaps_eq_nat]
    decide

/-- C4 (amended).  During one scan-line walk, a white run is recorded as a
candidate iff it begins either at `x = 1` (the pixel at `x = 0` is never examined,
white or not) or immediately after a non-white pixel, and is closed by a non-white
pixel at a position strictly before `len - 1` — a run still open when the loop
stops at `len - 2` is not recorded even if pixel `len - 1` is non-white — with its
length in `[1, 0.2 * len)`. -/
theorem c4_run_recorded_iff (white : ℕ → Bool) (len g : ℕ) :
    g ∈ scanLineGaps white len [] ↔
      ∃ s e, 1 ≤ s ∧ s < e ∧ e < len - 1 ∧
        (s = 1 ∨ white (s - 1) = false) ∧
        (∀ t, s ≤ t → t < e → white t = true) ∧
        white e = false ∧
        g = e - s ∧ 1 ≤ g ∧ (g : ℚ) < (len : ℚ) * (1 / 5) := by
  rw [scanLineGaps,
    scanFoldl_mem white ((len : ℚ) * (1 / 5)) (len - 2) 1 false 0 [] g]
  constructor
  · rintro (h | ⟨hin, -⟩ | ⟨s, e, hs1, hse, he, hcond, hwAll, hwe, hge, hg1, hglim⟩)
    · exact absurd h (List.not_mem_nil g)
    · exact Bool.noConfusion hin
    · refine ⟨s, e, hs1, hse, by omega, ?_, hwAll, hwe, hge, hg1, hglim⟩
      rcases hcond with ⟨hs, -⟩ | ⟨-, hw2⟩
      · exact Or.inl hs
      · exact Or.inr hw2
  · rintro ⟨s, e, hs1, hse, he, hcond, hwAll, hwe, hge, hg1, hglim⟩
    right; right
    refine ⟨s, e, hs1, hse, by omega, ?_, hwAll, hwe, hge, hg1, hglim⟩
    rcases hcond with hs | hw2
    · exact Or.inl ⟨hs, rfl⟩
    · by_cases hs1' : s = 1
      · exact Or.inl ⟨hs1', rfl⟩
      · exact Or.inr ⟨by omega, hw2⟩
